import Mathlib

/-!
Shallow embedding of the TabDo task-list core (src/main.ts) and proofs about
its operations.  Tasks, the application state, and each operation of
`TaskOperations` / `ResetManager` are translated into pure Lean functions:
JavaScript exceptions become `Except TaskError`, in-place mutation of the
task arrays becomes explicit list construction, `Date.now()` and the id
generator's random suffix become explicit parameters, and the environment's
local timezone becomes an explicit offset parameter (minutes west of UTC,
as returned by JavaScript's `getTimezoneOffset`).  JavaScript's stable
`Array.prototype.sort` (stable per the ECMAScript specification) is rendered
as a stable insertion sort, and the in-place `forEach` order renumbering as
a functional renumbering pass.
-/

namespace TabDo

/-- `ITask` from src/types.ts. -/
structure Task where
  id : String
  text : String
  checked : Bool
  createdAt : Int
  order : Int
  isRecurring : Bool
deriving Repr, DecidableEq

instance : Inhabited Task := ⟨⟨"", "", false, 0, 0, false⟩⟩

/-- Theme preference from `IAppState`. -/
inductive Theme where
  | light
  | dark
  | system
deriving Repr, DecidableEq

/-- `IAppState` from src/types.ts (the two lists are split into fields). -/
structure AppState where
  version : Int
  daily : List Task
  weekly : List Task
  theme : Theme
  lastReset : Int
deriving Repr, DecidableEq

/-- `ListType` from src/types.ts. -/
inductive ListType where
  | daily
  | weekly
deriving Repr, DecidableEq

def AppState.getList (s : AppState) : ListType → List Task
  | .daily => s.daily
  | .weekly => s.weekly

def AppState.setList (s : AppState) : ListType → List Task → AppState
  | .daily, l => { s with daily := l }
  | .weekly, l => { s with weekly := l }

/-- The errors thrown by `TaskOperations` (`throw new Error(...)` in main.ts). -/
inductive TaskError where
  | invalidTask
  | listFull
  | taskNotFound
deriving Repr, DecidableEq

/-- `VALIDATION_CONSTANTS.MAX_TASK_LENGTH`. -/
def MAX_TASK_LENGTH : Nat := 500

/-- `VALIDATION_CONSTANTS.MIN_TASK_LENGTH`. -/
def MIN_TASK_LENGTH : Nat := 1

/-- `VALIDATION_CONSTANTS.MAX_TASKS_PER_LIST`. -/
def MAX_TASKS_PER_LIST : Nat := 100

/-- `TaskOperations.validateTaskText` (main.ts lines 202-205):
`text.length >= MIN && text.length <= MAX` on the text as given (no trim). -/
def validateTaskText (text : String) : Bool :=
  decide (MIN_TASK_LENGTH ≤ text.length) && decide (text.length ≤ MAX_TASK_LENGTH)

/-- `TaskOperations.generateId` (main.ts lines 207-209); `Date.now()` and the
random base-36 suffix are explicit parameters. -/
def generateId (nowMs : Int) (randSuffix : String) : String :=
  "task-" ++ toString nowMs ++ "-" ++ randSuffix

/-- JavaScript `String.prototype.trim`: strip whitespace from both ends,
rendered structurally on the string's character list. -/
def jsTrim (s : String) : String :=
  ⟨((s.data.dropWhile Char.isWhitespace).reverse.dropWhile Char.isWhitespace).reverse⟩

/-- `TaskOperations.addTask` (main.ts lines 89-122), as a pure function of the
target list; the generated id and `Date.now()` are parameters.  The thrown
errors appear as `Except.error`; the source throws before calling `setState`,
so an error leaves the application state untouched. -/
def addTask (tasks : List Task) (text : String) (newId : String) (nowMs : Int) :
    Except TaskError (List Task) :=
  let trimmedText := jsTrim text
  if !validateTaskText trimmedText then
    .error .invalidTask
  else if decide (MAX_TASKS_PER_LIST ≤ tasks.length) then
    .error .listFull
  else
    let newTask : Task :=
      { id := newId, text := trimmedText, checked := false, createdAt := nowMs,
        order := 0, isRecurring := false }
    .ok (newTask :: tasks.map (fun t => { t with order := t.order + 1 }))

/-- `Partial<ITask>`: an update payload; `none` means the key is absent. -/
structure TaskUpdate where
  id : Option String := none
  text : Option String := none
  checked : Option Bool := none
  createdAt : Option Int := none
  order : Option Int := none
  isRecurring : Option Bool := none
deriving Repr, DecidableEq

/-- The JavaScript object spread `{ ...task, ...updates }` in
`TaskOperations.updateTask` (main.ts line 137): every key present in the
payload overwrites the task's field, `id` and `createdAt` included. -/
def mergeTask (t : Task) (u : TaskUpdate) : Task :=
  { id := u.id.getD t.id
    text := u.text.getD t.text
    checked := u.checked.getD t.checked
    createdAt := u.createdAt.getD t.createdAt
    order := u.order.getD t.order
    isRecurring := u.isRecurring.getD t.isRecurring }

/-- `TaskOperations.updateTask` (main.ts lines 124-139).  The guard
`updates.text && !validateTaskText(updates.text)` only fires when the payload
carries a *truthy* text (the empty string is falsy in JavaScript), and it
validates the raw, untrimmed text. -/
def updateTask (tasks : List Task) (taskId : String) (updates : TaskUpdate) :
    Except TaskError (List Task) :=
  match tasks.findIdx? (fun t => t.id == taskId) with
  | none => .error .taskNotFound
  | some taskIndex =>
    if updates.text.any (fun s => s != "" && !validateTaskText s) then
      .error .invalidTask
    else
      .ok (tasks.set taskIndex (mergeTask (tasks.getD taskIndex default) updates))

/-- `TaskOperations.deleteTask` (main.ts lines 141-147). -/
def deleteTask (tasks : List Task) (taskId : String) : List Task :=
  tasks.filter (fun t => t.id != taskId)

/-- The in-place renumbering `forEach((task, index) => { task.order = index })`
used by `reorderTasksByCompletion`, `reorderTasks` and `resetDailyList`. -/
def renumberFrom (i : Int) : List Task → List Task
  | [] => []
  | t :: ts => { t with order := i } :: renumberFrom (i + 1) ts

def renumber (tasks : List Task) : List Task := renumberFrom 0 tasks

/-- One insertion step of the stable sort standing for
`Array.prototype.sort((a, b) => a.order - b.order)` (stable by the ECMAScript
specification): an element is placed before every later element of equal
`order`. -/
def insertByOrder (x : Task) : List Task → List Task
  | [] => [x]
  | u :: us => if x.order ≤ u.order then x :: u :: us else u :: insertByOrder x us

/-- Stable sort by `order` ascending, the embedding of
`.sort((a, b) => a.order - b.order)` in main.ts lines 174 and 177. -/
def sortByOrder : List Task → List Task
  | [] => []
  | x :: xs => insertByOrder x (sortByOrder xs)

/-- `TaskOperations.reorderTasksByCompletion` (main.ts lines 168-188): filter
the unchecked and checked tasks, sort each by `order`, concatenate, renumber. -/
def reorderTasksByCompletion (tasks : List Task) : List Task :=
  let uncompletedTasks := sortByOrder (tasks.filter (fun t => !t.checked))
  let completedTasks := sortByOrder (tasks.filter (fun t => t.checked))
  renumber (uncompletedTasks ++ completedTasks)

/-- The in-place flip `task.checked = !task.checked` of main.ts line 160: the
task at the found index is replaced by a copy with `checked` negated. -/
def flipAt (tasks : List Task) (taskIndex : Nat) : List Task :=
  tasks.set taskIndex
    { tasks.getD taskIndex default with checked := !(tasks.getD taskIndex default).checked }

/-- `TaskOperations.toggleTask` (main.ts lines 149-166): find the first task
with the given id, flip its `checked` flag in place, then reorder the whole
list by completion status. -/
def toggleTask (tasks : List Task) (taskId : String) : Except TaskError (List Task) :=
  match tasks.findIdx? (fun t => t.id == taskId) with
  | none => .error .taskNotFound
  | some taskIndex =>
    .ok (reorderTasksByCompletion (flipAt tasks taskIndex))

/-- `TaskOperations.reorderTasks` (main.ts lines 190-200): select the task for
each given id (dropping ids with no match), then assign `order := index`.  The
source assigns `task.order = index` in place on the selected references; this
functional rendering gives each selected position its own index, which agrees
with the source whenever the id sequence has no duplicates (the documented
precondition: the caller passes a permutation of the list's ids). -/
def reorderTasks (tasks : List Task) (taskIds : List String) : List Task :=
  let reorderedTasks := taskIds.filterMap (fun i => tasks.find? (fun t => t.id == i))
  renumber reorderedTasks

/-- One step of the `forEach` loop in `ResetManager.resetDailyList`
(main.ts lines 243-256): recurring tasks are `unshift`ed (prepended) with
`checked` cleared, non-recurring unchecked tasks are `push`ed (appended),
non-recurring checked tasks are dropped. -/
def resetStep (acc : List Task) (task : Task) : List Task :=
  if task.isRecurring then
    { task with checked := false, order := 0 } :: acc
  else if !task.checked then
    acc ++ [task]
  else
    acc

/-- The `processedTasks` accumulation of `ResetManager.resetDailyList`. -/
def resetDailyProcess (dailyTasks : List Task) : List Task :=
  dailyTasks.foldl resetStep []

/-- `ResetManager.resetDailyList` (main.ts lines 236-269): process the daily
list, renumber, and store it back; the weekly list is not touched. -/
def resetDailyList (s : AppState) : AppState :=
  { s with daily := renumber (resetDailyProcess s.daily) }

def msPerDay : Int := 86400000

def msPerMinute : Int := 60000

/-- Civil (proleptic Gregorian) date from a count of days since 1970-01-01,
the arithmetic underlying JavaScript `Date`'s year/month/day accessors.
Returns (year, month 1..12, day 1..31). -/
def civilFromDays (z : Int) : Int × Int × Int :=
  let zs := z + 719468
  let era := Int.fdiv zs 146097
  let doe := zs - era * 146097
  let yoe := Int.fdiv (doe - Int.fdiv doe 1460 + Int.fdiv doe 36524 - Int.fdiv doe 146096) 365
  let y := yoe + era * 400
  let doy := doe - (365 * yoe + Int.fdiv yoe 4 - Int.fdiv yoe 100)
  let mp := Int.fdiv (5 * doy + 2) 153
  let d := doy - Int.fdiv (153 * mp + 2) 5 + 1
  let m := if mp < 10 then mp + 3 else mp - 9
  (if m ≤ 2 then y + 1 else y, m, d)

/-- The local day number of an epoch-millisecond instant; `tzOffsetMin` is the
zone offset in minutes west of UTC (JavaScript `getTimezoneOffset`). -/
def localDays (tzOffsetMin : Int) (epochMs : Int) : Int :=
  Int.fdiv (epochMs - tzOffsetMin * msPerMinute) msPerDay

/-- The local calendar date (year, month 1..12, day) of an instant. -/
def localCivilDate (tzOffsetMin : Int) (epochMs : Int) : Int × Int × Int :=
  civilFromDays (localDays tzOffsetMin epochMs)

/-- JavaScript `new Date(ms).getFullYear()` in the given zone. -/
def jsGetFullYear (tzOffsetMin : Int) (epochMs : Int) : Int :=
  (localCivilDate tzOffsetMin epochMs).1

/-- JavaScript `new Date(ms).getMonth()` in the given zone (0-based). -/
def jsGetMonth (tzOffsetMin : Int) (epochMs : Int) : Int :=
  (localCivilDate tzOffsetMin epochMs).2.1 - 1

/-- JavaScript `new Date(ms).getDate()` in the given zone (day of month). -/
def jsGetDate (tzOffsetMin : Int) (epochMs : Int) : Int :=
  (localCivilDate tzOffsetMin epochMs).2.2

/-- `ResetManager.shouldReset` (main.ts lines 224-234): compare the local
day-of-month, month, and year of `lastReset` and of now. -/
def shouldReset (tzOffsetMin : Int) (lastReset : Int) (nowMs : Int) : Bool :=
  jsGetDate tzOffsetMin lastReset != jsGetDate tzOffsetMin nowMs ||
  jsGetMonth tzOffsetMin lastReset != jsGetMonth tzOffsetMin nowMs ||
  jsGetFullYear tzOffsetMin lastReset != jsGetFullYear tzOffsetMin nowMs

/-- `DEFAULT_APP_STATE` from src/types.ts; its `lastReset: Date.now()` makes it
a function of the load instant. -/
def DEFAULT_APP_STATE (nowMs : Int) : AppState :=
  { version := 1, daily := [], weekly := [], theme := .system, lastReset := nowMs }

/-- State-level `addTask`: on success the app's list is replaced via
`setState`; a thrown error reaches the caller before `setState` runs. -/
def addTaskS (s : AppState) (lt : ListType) (text newId : String) (nowMs : Int) :
    Except TaskError AppState :=
  (addTask (s.getList lt) text newId nowMs).map (s.setList lt)

def updateTaskS (s : AppState) (lt : ListType) (taskId : String) (u : TaskUpdate) :
    Except TaskError AppState :=
  (updateTask (s.getList lt) taskId u).map (s.setList lt)

def deleteTaskS (s : AppState) (lt : ListType) (taskId : String) : AppState :=
  s.setList lt (deleteTask (s.getList lt) taskId)

def toggleTaskS (s : AppState) (lt : ListType) (taskId : String) :
    Except TaskError AppState :=
  (toggleTask (s.getList lt) taskId).map (s.setList lt)

def reorderTasksS (s : AppState) (lt : ListType) (taskIds : List String) : AppState :=
  s.setList lt (reorderTasks (s.getList lt) taskIds)

/-- A thrown `TaskError` propagates before `setState` is called, so the
caller's state survives unchanged; this runs an operation with exactly that
exception semantics. -/
def applyExcept (s : AppState) : Except TaskError AppState → AppState
  | .ok s2 => s2
  | .error _ => s

/-- The pairwise-distinct-id invariant on one list. -/
def idsNodup (l : List Task) : Prop := (l.map Task.id).Nodup

instance (l : List Task) : Decidable (idsNodup l) := by
  unfold idsNodup; infer_instance

/-- The spec's AppState invariant: both lists have pairwise-distinct ids. -/
def StateInv (s : AppState) : Prop := idsNodup s.daily ∧ idsNodup s.weekly

instance (s : AppState) : Decidable (StateInv s) := by
  unfold StateInv; infer_instance

/-! Concrete fixtures used by counterexamples and witnesses. -/

/-- Fixture task A: order 0, unchecked. -/
def fixA : Task := ⟨"a", "A", false, 0, 0, false⟩

/-- Fixture task B: order 1, checked. -/
def fixB : Task := ⟨"b", "B", true, 0, 1, false⟩

/-- Fixture task C: order 2, unchecked. -/
def fixC : Task := ⟨"c", "C", false, 0, 2, false⟩

/-- Reset fixture X: recurring, checked. -/
def fixX : Task := ⟨"x", "X", true, 0, 0, true⟩

/-- Reset fixture Y: non-recurring, unchecked. -/
def fixY : Task := ⟨"y", "Y", false, 0, 1, false⟩

/-- Reset fixture Z: non-recurring, checked. -/
def fixZ : Task := ⟨"z", "Z", true, 0, 2, false⟩

/-- Two recurring unchecked tasks, in id order "a" then "b". -/
def recA : Task := ⟨"a", "A", false, 0, 0, true⟩

def recB : Task := ⟨"b", "B", false, 0, 1, true⟩

/-- A daily list already holding exactly 100 tasks. -/
def fullList : List Task :=
  (List.range 100).map (fun i => ⟨toString i, "t", false, 0, Int.ofNat i, false⟩)

/-- A two-task state used to exercise the distinct-id invariant. -/
def stateAB : AppState := ⟨1, [fixA, fixB], [], .system, 0⟩

/-- An update payload carrying `id` and `createdAt` entries. -/
def updQ : TaskUpdate := { id := some "q", createdAt := some 9 }

/-! ### Helper lemmas about renumbering -/

theorem renumberFrom_length (i : Int) (l : List Task) :
    (renumberFrom i l).length = l.length := by
  induction l generalizing i with
  | nil => rfl
  | cons t ts ih => simp [renumberFrom, ih]

theorem renumber_length (l : List Task) : (renumber l).length = l.length :=
  renumberFrom_length 0 l

theorem renumberFrom_getElem? (i : Int) (l : List Task) (k : Nat) :
    (renumberFrom i l)[k]? = l[k]?.map (fun t => { t with order := i + k }) := by
  induction l generalizing i k with
  | nil => simp [renumberFrom]
  | cons t ts ih =>
    cases k with
    | zero => simp [renumberFrom]
    | succ k =>
      have h : i + 1 + (k : Int) = i + ((k + 1 : Nat) : Int) := by push_cast; ring
      simp [renumberFrom, ih (i + 1) k, h]

theorem renumber_getElem? (l : List Task) (k : Nat) :
    (renumber l)[k]? = l[k]?.map (fun t => { t with order := (k : Int) }) := by
  have := renumberFrom_getElem? 0 l k
  simpa [renumber] using this

theorem renumberFrom_map {β : Type} (f : Task → β)
    (hf : ∀ t o, f { t with order := o } = f t) (i : Int) (l : List Task) :
    (renumberFrom i l).map f = l.map f := by
  induction l generalizing i with
  | nil => rfl
  | cons t ts ih => simp [renumberFrom, hf, ih]

theorem renumber_map {β : Type} (f : Task → β)
    (hf : ∀ t o, f { t with order := o } = f t) (l : List Task) :
    (renumber l).map f = l.map f :=
  renumberFrom_map f hf 0 l

/-! ### Helper lemmas about the stable sort -/

theorem insertByOrder_perm (x : Task) (l : List Task) :
    (insertByOrder x l).Perm (x :: l) := by
  induction l with
  | nil => simp [insertByOrder]
  | cons u us ih =>
    unfold insertByOrder
    by_cases h : x.order ≤ u.order
    · simp [h]
    · simp only [if_neg h]
      exact (ih.cons u).trans (List.Perm.swap x u us)

theorem sortByOrder_perm (l : List Task) : (sortByOrder l).Perm l := by
  induction l with
  | nil => simp [sortByOrder]
  | cons x xs ih =>
    exact (insertByOrder_perm x (sortByOrder xs)).trans (ih.cons x)

theorem insertByOrder_pairwise (x : Task) (l : List Task)
    (h : l.Pairwise (fun a b => a.order ≤ b.order)) :
    (insertByOrder x l).Pairwise (fun a b => a.order ≤ b.order) := by
  induction l with
  | nil => simp [insertByOrder]
  | cons u us ih =>
    rcases List.pairwise_cons.mp h with ⟨hu, hus⟩
    unfold insertByOrder
    by_cases hx : x.order ≤ u.order
    · simp only [if_pos hx]
      refine List.pairwise_cons.mpr ⟨?_, h⟩
      intro b hb
      rcases List.mem_cons.mp hb with rfl | hb
      · exact hx
      · exact le_trans hx (hu b hb)
    · simp only [if_neg hx]
      refine List.pairwise_cons.mpr ⟨?_, ih hus⟩
      intro b hb
      have hb2 : b ∈ x :: us := (insertByOrder_perm x us).mem_iff.mp hb
      rcases List.mem_cons.mp hb2 with rfl | hb2
      · omega
      · exact hu b hb2

theorem sortByOrder_pairwise (l : List Task) :
    (sortByOrder l).Pairwise (fun a b => a.order ≤ b.order) := by
  induction l with
  | nil => simp [sortByOrder]
  | cons x xs ih => exact insertByOrder_pairwise x (sortByOrder xs) ih

theorem filter_insertByOrder (x : Task) (l : List Task) (v : Int) :
    (insertByOrder x l).filter (fun t => t.order == v) =
      if x.order == v then x :: l.filter (fun t => t.order == v)
      else l.filter (fun t => t.order == v) := by
  induction l with
  | nil => simp [insertByOrder, List.filter_cons]
  | cons u us ih =>
    unfold insertByOrder
    by_cases hx : x.order ≤ u.order
    · simp only [if_pos hx, List.filter_cons]
    · have hlt : u.order < x.order := by omega
      rw [if_neg hx]
      by_cases hxv : x.order = v
      · have huv : (u.order == v) = false := by
          simp only [beq_eq_false_iff_ne]; omega
        simp [List.filter_cons, huv, ih, hxv]
      · have hxv2 : (x.order == v) = false := by
          simp only [beq_eq_false_iff_ne]; omega
        simp [List.filter_cons, hxv2, ih]

theorem sortByOrder_filter (l : List Task) (v : Int) :
    (sortByOrder l).filter (fun t => t.order == v) =
      l.filter (fun t => t.order == v) := by
  induction l with
  | nil => rfl
  | cons x xs ih =>
    show (insertByOrder x (sortByOrder xs)).filter _ = _
    rw [filter_insertByOrder, List.filter_cons]
    split <;> simp_all

/-! ### Helper lemmas about the reset fold -/

theorem foldl_resetStep (l : List Task) :
    ∀ acc, l.foldl resetStep acc =
      ((l.filter (fun t => t.isRecurring)).map
          (fun t => { t with checked := false, order := 0 })).reverse ++
        acc ++ l.filter (fun t => !t.isRecurring && !t.checked) := by
  induction l with
  | nil => intro acc; simp
  | cons t ts ih =>
    intro acc
    simp only [List.foldl_cons, List.filter_cons]
    cases hr : t.isRecurring with
    | true =>
      rw [ih]
      simp [resetStep, hr, List.append_assoc]
    | false =>
      cases hc : t.checked with
      | false => rw [ih]; simp [resetStep, hr, hc, List.append_assoc]
      | true => rw [ih]; simp [resetStep, hr, hc]

/-! ### Helper lemmas about selection by id (`reorderTasks`) -/

theorem filterMap_getElem?_of_isSome {α β : Type} (f : α → Option β) (l : List α)
    (h : ∀ a ∈ l, (f a).isSome) (k : Nat) :
    (l.filterMap f)[k]? = l[k]?.bind f := by
  induction l generalizing k with
  | nil => simp
  | cons a rest ih =>
    obtain ⟨b, hb⟩ := Option.isSome_iff_exists.mp (h a (List.mem_cons_self a rest))
    rw [List.filterMap_cons, hb]
    cases k with
    | zero => simp [hb]
    | succ k =>
      simp only [List.getElem?_cons_succ]
      exact ih (fun x hx => h x (List.mem_cons_of_mem a hx)) k

theorem filterMap_length_of_isSome {α β : Type} (f : α → Option β) (l : List α)
    (h : ∀ a ∈ l, (f a).isSome) :
    (l.filterMap f).length = l.length := by
  induction l with
  | nil => rfl
  | cons a rest ih =>
    obtain ⟨b, hb⟩ := Option.isSome_iff_exists.mp (h a (List.mem_cons_self a rest))
    rw [List.filterMap_cons, hb, List.length_cons, List.length_cons,
      ih (fun x hx => h x (List.mem_cons_of_mem a hx))]

/-! ### Helper lemmas about completion reordering and the in-place flip -/

theorem partition_filter_perm (l : List Task) :
    (l.filter (fun t => !t.checked) ++ l.filter (fun t => t.checked)).Perm l := by
  have h := List.filter_append_perm (fun t => !t.checked) l
  simpa [Bool.not_not] using h

theorem completion_map_perm {β : Type} (f : Task → β)
    (hf : ∀ t o, f { t with order := o } = f t) (l : List Task) :
    ((reorderTasksByCompletion l).map f).Perm (l.map f) := by
  unfold reorderTasksByCompletion
  rw [renumber_map f hf, List.map_append]
  have h1 := ((sortByOrder_perm (l.filter (fun t => !t.checked))).map f).append
    ((sortByOrder_perm (l.filter (fun t => t.checked))).map f)
  refine h1.trans ?_
  rw [← List.map_append]
  exact (partition_filter_perm l).map f

theorem completion_length (l : List Task) :
    (reorderTasksByCompletion l).length = l.length := by
  have := (completion_map_perm (fun t => t.id) (fun t o => rfl) l).length_eq
  simpa using this

theorem flipAt_map {β : Type} (f : Task → β)
    (hf : ∀ t b, f { t with checked := b } = f t) (l : List Task) (i : Nat) :
    (flipAt l i).map f = l.map f := by
  unfold flipAt
  by_cases hi : i < l.length
  · have hgd : l.getD i default = l.get ⟨i, hi⟩ := by
      simp [List.getD_eq_getElem?_getD, List.getElem?_eq_getElem hi]
    rw [List.map_set, hf, hgd]
    apply List.ext_getElem?
    intro n
    by_cases hn : n = i
    · subst hn
      rw [List.getElem?_set_self (by simpa using hi)]
      simp [List.getElem?_eq_getElem hi]
    · rw [List.getElem?_set_ne (fun hc => hn hc.symm)]
  · rw [List.set_eq_of_length_le (by omega)]

theorem flipAt_length (l : List Task) (i : Nat) : (flipAt l i).length = l.length := by
  unfold flipAt; simp

theorem set_get_self {α : Type} (l : List α) (i : Nat) (hi : i < l.length) :
    l.set i (l.get ⟨i, hi⟩) = l := by
  apply List.ext_getElem?
  intro n
  by_cases hn : n = i
  · subst hn
    rw [List.getElem?_set_self (by simpa using hi)]
    simp [List.getElem?_eq_getElem hi]
  · rw [List.getElem?_set_ne (fun hc => hn hc.symm)]

/-! ### Preservation of the distinct-id invariant, list by list -/

theorem idsNodup_addTask {tasks r : List Task} {text newId : String} {nowMs : Int}
    (hnd : idsNodup tasks) (hfresh : newId ∉ tasks.map Task.id)
    (h : addTask tasks text newId nowMs = .ok r) : idsNodup r := by
  simp only [addTask] at h
  split at h
  · exact absurd h (by simp)
  · split at h
    · exact absurd h (by simp)
    · injection h with h2
      subst h2
      unfold idsNodup
      rw [List.map_cons, List.map_map]
      refine List.nodup_cons.mpr ⟨?_, ?_⟩
      · simpa [Function.comp] using hfresh
      · simpa [Function.comp] using hnd

theorem idsNodup_updateTask {tasks r : List Task} {taskId : String} {u : TaskUpdate}
    (hnd : idsNodup tasks) (hid : u.id = none)
    (h : updateTask tasks taskId u = .ok r) : idsNodup r := by
  unfold updateTask at h
  split at h
  · exact absurd h (by simp)
  case _ idx hfind =>
    split at h
    · exact absurd h (by simp)
    · injection h with h2
      subst h2
      obtain ⟨hlt, -, -⟩ := List.findIdx?_eq_some_iff_getElem.mp hfind
      unfold idsNodup
      rw [List.map_set]
      have hmerge : (mergeTask (tasks.getD idx default) u).id =
          (tasks.getD idx default).id := by
        simp [mergeTask, hid]
      have hgd : tasks.getD idx default = tasks.get ⟨idx, hlt⟩ := by
        simp [List.getD_eq_getElem?_getD, List.getElem?_eq_getElem hlt]
      have hmap : (tasks.get ⟨idx, hlt⟩).id =
          (tasks.map Task.id).get ⟨idx, by simpa using hlt⟩ := by
        simp
      rw [hmerge, hgd, hmap, set_get_self]
      exact hnd

theorem idsNodup_deleteTask {tasks : List Task} {taskId : String}
    (hnd : idsNodup tasks) : idsNodup (deleteTask tasks taskId) :=
  List.Nodup.sublist ((List.filter_sublist tasks).map Task.id) hnd

theorem toggleTask_map_perm {β : Type} (f : Task → β)
    (hford : ∀ t o, f { t with order := o } = f t)
    (hfchk : ∀ t b, f { t with checked := b } = f t)
    {tasks r : List Task} {taskId : String}
    (h : toggleTask tasks taskId = .ok r) : (r.map f).Perm (tasks.map f) := by
  unfold toggleTask at h
  split at h
  · exact absurd h (by simp)
  case _ idx hfind =>
    injection h with h2
    subst h2
    refine (completion_map_perm f hford _).trans ?_
    rw [flipAt_map f hfchk]

theorem idsNodup_toggleTask {tasks r : List Task} {taskId : String}
    (hnd : idsNodup tasks) (h : toggleTask tasks taskId = .ok r) : idsNodup r :=
  ((toggleTask_map_perm Task.id (fun _ _ => rfl) (fun _ _ => rfl) h).symm).nodup hnd

theorem reorderTasks_map_id (tasks : List Task) (taskIds : List String) :
    (reorderTasks tasks taskIds).map Task.id =
      taskIds.filter (fun i => (tasks.find? (fun t => t.id == i)).isSome) := by
  unfold reorderTasks
  rw [renumber_map Task.id (fun _ _ => rfl)]
  induction taskIds with
  | nil => rfl
  | cons i rest ih =>
    rw [List.filterMap_cons, List.filter_cons]
    cases hf : tasks.find? (fun t => t.id == i) with
    | none => simp only [hf, Option.isSome_none]; simpa using ih
    | some t =>
      have hid : t.id = i := by simpa using List.find?_some hf
      simp only [hf, Option.isSome_some, List.map_cons, hid]
      simpa using ih

theorem idsNodup_reorderTasks {taskIds : List String} (tasks : List Task)
    (hnd : taskIds.Nodup) : idsNodup (reorderTasks tasks taskIds) := by
  unfold idsNodup
  rw [reorderTasks_map_id]
  exact hnd.filter _

theorem resetDaily_ids (l : List Task) :
    (renumber (resetDailyProcess l)).map Task.id =
      ((l.filter (fun t => t.isRecurring)).map Task.id).reverse ++
        (l.filter (fun t => !t.isRecurring && !t.checked)).map Task.id := by
  rw [renumber_map Task.id (fun _ _ => rfl)]
  unfold resetDailyProcess
  rw [foldl_resetStep]
  simp [List.map_reverse, List.map_map, Function.comp]

theorem idsNodup_reset {l : List Task} (hnd : idsNodup l) :
    idsNodup (renumber (resetDailyProcess l)) := by
  unfold idsNodup
  rw [resetDaily_ids, List.nodup_append]
  refine ⟨List.nodup_reverse.mpr
      (List.Nodup.sublist ((List.filter_sublist l).map Task.id) hnd),
    List.Nodup.sublist ((List.filter_sublist l).map Task.id) hnd, ?_⟩
  intro a ha hb
  obtain ⟨t1, ht1, rfl⟩ := List.mem_map.mp (List.mem_reverse.mp ha)
  obtain ⟨t2, ht2, hideq⟩ := List.mem_map.mp hb
  have h1 := List.of_mem_filter ht1
  have h2 := List.of_mem_filter ht2
  have heq : t2 = t1 := List.inj_on_of_nodup_map hnd
    (List.mem_of_mem_filter ht2) (List.mem_of_mem_filter ht1) hideq
  rw [heq] at h2
  simp at h1 h2
  rw [h1] at h2
  exact absurd h2.1 (by simp)

/-! ### Lifting the invariant to the application state -/

theorem getList_nodup {s : AppState} (lt : ListType) (h : StateInv s) :
    idsNodup (s.getList lt) := by
  cases lt
  · exact h.1
  · exact h.2

theorem setList_inv {s : AppState} {l : List Task} (lt : ListType)
    (h : StateInv s) (hl : idsNodup l) : StateInv (s.setList lt l) := by
  cases lt
  · exact ⟨hl, h.2⟩
  · exact ⟨h.1, hl⟩

/-- A non-empty string has positive length. -/
theorem one_le_length_of_ne_empty {s : String} (h : s ≠ "") : 1 ≤ s.length := by
  have hd : s.data ≠ [] := by
    intro hdata
    exact h (String.ext_iff.mpr (by simpa using hdata))
  exact List.length_pos.mpr hd

/-! ### Claim theorems -/

/-- C8: `shouldReset` returns `true` exactly when the local calendar date
(year, month, day) of `lastReset` differs from the local calendar date of now,
for every timezone offset; in particular it is `false` for two instants of the
same local day (here 1970-01-03 00:00:01 vs 02:00:01 UTC) and `true` when
`lastReset` is one minute before the local midnight preceding now
(1970-01-02 23:59:00 vs 1970-01-03 00:00:01 UTC). -/
theorem shouldReset_iff_date_differs :
    (∀ tzOffsetMin lastReset nowMs : Int,
        shouldReset tzOffsetMin lastReset nowMs = true ↔
          localCivilDate tzOffsetMin lastReset ≠ localCivilDate tzOffsetMin nowMs) ∧
    shouldReset 0 (2 * 86400000 + 1000) (2 * 86400000 + 7200000) = false ∧
    shouldReset 0 (2 * 86400000 - 60000) (2 * 86400000 + 1000) = true := by
  refine ⟨?_, by decide, by decide⟩
  intro tz a b
  unfold shouldReset jsGetDate jsGetMonth jsGetFullYear
  rcases h1 : localCivilDate tz a with ⟨y1, m1, d1⟩
  rcases h2 : localCivilDate tz b with ⟨y2, m2, d2⟩
  simp only [bne_iff_ne, Bool.or_eq_true, ne_eq, Prod.mk.injEq, not_and]
  omega

/-- C1 counterexample: on a daily list holding two recurring tasks with ids
"a" then "b", `PerformReset` emits them in the REVERSE of their original
relative order (each recurring task is `unshift`ed to the front), so the
claim's "recurring survivors first in their original relative order" is false
at this input. -/
theorem resetDaily_reverses_recurring_cex :
    (resetDailyList ⟨1, [recA, recB], [], .system, 0⟩).daily.map Task.id = ["b", "a"] ∧
    (resetDailyList ⟨1, [recA, recB], [], .system, 0⟩).daily.map Task.id ≠ ["a", "b"] := by
  exact ⟨rfl, by decide⟩

/-- C1 (amended): for every state, `PerformReset` keeps each recurring task
with `checked` cleared, keeps each non-recurring unchecked task, and drops
each non-recurring checked task; the result lists the recurring survivors
first in the REVERSE of their original relative order, followed by the kept
non-recurring tasks in their original relative order, with `order` renumbered
0..n-1 by position; the weekly list is untouched.  The spec's single-recurring
scenario (X recurring checked, Y non-recurring unchecked, Z non-recurring
checked) still yields [X with checked=false and order 0, Y unchanged with
order 1], Z removed. -/
theorem resetDaily_amended :
    (∀ s : AppState,
        (resetDailyList s).daily =
          renumber
            (((s.daily.filter (fun t => t.isRecurring)).map
                (fun t => { t with checked := false, order := 0 })).reverse ++
              s.daily.filter (fun t => !t.isRecurring && !t.checked)) ∧
        (resetDailyList s).weekly = s.weekly) ∧
    (resetDailyList ⟨1, [fixX, fixY, fixZ], [], .system, 0⟩).daily =
      [{ fixX with checked := false, order := 0 }, fixY] := by
  refine ⟨fun s => ⟨?_, rfl⟩, by decide⟩
  show renumber (resetDailyProcess s.daily) = _
  unfold resetDailyProcess
  rw [foldl_resetStep]
  simp

/-- C7 counterexample: on a list already holding 100 tasks, `Add` with an
invalid (empty) text fails with `InvalidTask`, not `ListFull` — text
validation precedes the capacity check — so the claim's "fails with ListFull
whenever the target list already holds 100 tasks" is false at this input. -/
theorem addTask_full_invalid_text_cex :
    fullList.length = 100 ∧
    addTask fullList "" "nid" 5 = .error .invalidTask ∧
    addTask fullList "" "nid" 5 ≠ .error .listFull := by
  refine ⟨rfl, rfl, ?_⟩
  intro h
  rw [show addTask fullList "" "nid" 5 = Except.error TaskError.invalidTask from rfl] at h
  injection h with h2
  cases h2

/-- C7 (amended): `Add` fails with `InvalidTask` whenever the trimmed text has
length 0 or above 500 (regardless of capacity — validation precedes the
capacity check); when the trimmed text is valid it fails with `ListFull`
whenever the list already holds 100 (or more) tasks; and a failing `Add`
leaves the application state unchanged, the error propagating before
`setState`. -/
theorem addTask_failure_amended :
    (∀ (tasks : List Task) (text newId : String) (nowMs : Int),
        (jsTrim text).length = 0 ∨ 500 < (jsTrim text).length →
        addTask tasks text newId nowMs = .error .invalidTask) ∧
    (∀ (tasks : List Task) (text newId : String) (nowMs : Int),
        1 ≤ (jsTrim text).length → (jsTrim text).length ≤ 500 → 100 ≤ tasks.length →
        addTask tasks text newId nowMs = .error .listFull) ∧
    (∀ (s : AppState) (lt : ListType) (text newId : String) (nowMs : Int)
        (e : TaskError),
        addTaskS s lt text newId nowMs = .error e →
        applyExcept s (addTaskS s lt text newId nowMs) = s) := by
  refine ⟨?_, ?_, ?_⟩
  · intro tasks text newId nowMs h
    have hv : validateTaskText (jsTrim text) = false := by
      simp only [validateTaskText, MIN_TASK_LENGTH, MAX_TASK_LENGTH,
        Bool.and_eq_false_imp, decide_eq_true_eq, decide_eq_false_iff_not]
      omega
    simp [addTask, hv]
  · intro tasks text newId nowMs h1 h2 h3
    have hv : validateTaskText (jsTrim text) = true := by
      simp only [validateTaskText, MIN_TASK_LENGTH, MAX_TASK_LENGTH,
        Bool.and_eq_true, decide_eq_true_eq]
      omega
    simp [addTask, hv, MAX_TASKS_PER_LIST, h3]
  · intro s lt text newId nowMs e h
    rw [h]
    rfl

end TabDo

namespace TabDo

/-- C6: for every list holding fewer than 100 tasks and every text whose
trimmed length lies between 1 and 500, `Add` succeeds: the new task — with the
supplied fresh id, the trimmed text, `checked = false`, `isRecurring = false`,
`order = 0`, `createdAt` = now — is prepended at rank 0, every previously
existing task has its `order` increased by exactly 1 with all other fields
unchanged, and the length grows by exactly 1. -/
theorem addTask_success (tasks : List Task) (text newId : String) (nowMs : Int)
    (hlen : tasks.length < 100)
    (h1 : 1 ≤ (jsTrim text).length) (h2 : (jsTrim text).length ≤ 500)
    (hfresh : newId ∉ tasks.map Task.id) :
    addTask tasks text newId nowMs =
      .ok ({ id := newId, text := jsTrim text, checked := false, createdAt := nowMs,
             order := 0, isRecurring := false } ::
           tasks.map (fun t => { t with order := t.order + 1 })) ∧
    ({ id := newId, text := jsTrim text, checked := false, createdAt := nowMs,
       order := 0, isRecurring := false } ::
     tasks.map (fun t => { t with order := t.order + 1 })).length = tasks.length + 1 ∧
    newId ∉ tasks.map Task.id ∧
    ∀ i : Nat, (tasks.map (fun t => { t with order := t.order + 1 }))[i]? =
      tasks[i]?.map (fun t => { t with order := t.order + 1 }) := by
  have hv : validateTaskText (jsTrim text) = true := by
    simp only [validateTaskText, MIN_TASK_LENGTH, MAX_TASK_LENGTH, Bool.and_eq_true,
      decide_eq_true_eq]
    omega
  have hfull : decide (MAX_TASKS_PER_LIST ≤ tasks.length) = false := by
    simp only [MAX_TASKS_PER_LIST, decide_eq_false_iff_not]
    omega
  refine ⟨?_, by simp, hfresh, fun i => ?_⟩
  · simp [addTask, hv, hfull]
  · simp

/-- Witness for C6 at a concrete input. -/
theorem addTask_success_witness :
    addTask [fixB] " hi " "n7" 42 =
      .ok ({ id := "n7", text := jsTrim " hi ", checked := false, createdAt := 42,
             order := 0, isRecurring := false } ::
           [fixB].map (fun t => { t with order := t.order + 1 })) ∧
    ({ id := "n7", text := jsTrim " hi ", checked := false, createdAt := 42,
       order := 0, isRecurring := false } ::
     [fixB].map (fun t => { t with order := t.order + 1 })).length = [fixB].length + 1 ∧
    "n7" ∉ [fixB].map Task.id ∧
    ∀ i : Nat, ([fixB].map (fun t => { t with order := t.order + 1 }))[i]? =
      [fixB][i]?.map (fun t => { t with order := t.order + 1 }) :=
  addTask_success [fixB] " hi " "n7" 42 (by decide) (by decide) (by decide) (by decide)

/-- C2 counterexample: an `id` entry in the update payload IS applied to the
target task — the object spread merges every present key — so the claim's
"Update leaves the targeted task's id equal to its prior value" is false at
this input. -/
theorem updateTask_id_overwritten_cex :
    updateTask [fixA] "a" { id := some "b" } = .ok [{ fixA with id := "b" }] ∧
    ({ fixA with id := "b" } : Task).id ≠ fixA.id :=
  ⟨rfl, by decide⟩

/-- C2 (amended): `Update` merges every field present in the payload into the
target task — `id` and `createdAt` included, applied rather than rejected or
ignored — and leaves every task other than the target unchanged. -/
theorem updateTask_payload_applied (tasks : List Task) (taskId : String)
    (u : TaskUpdate) (idx : Nat)
    (hfind : tasks.findIdx? (fun t => t.id == taskId) = some idx)
    (htext : u.text.any (fun s => s != "" && !validateTaskText s) = false) :
    updateTask tasks taskId u =
      .ok (tasks.set idx (mergeTask (tasks.getD idx default) u)) ∧
    (tasks.set idx (mergeTask (tasks.getD idx default) u)).length = tasks.length ∧
    (∀ j : Nat, j ≠ idx →
      (tasks.set idx (mergeTask (tasks.getD idx default) u))[j]? = tasks[j]?) ∧
    (tasks.set idx (mergeTask (tasks.getD idx default) u))[idx]? =
      tasks[idx]?.map (fun t => mergeTask t u) ∧
    (∀ v, u.id = some v →
      (tasks.set idx (mergeTask (tasks.getD idx default) u))[idx]?.map Task.id =
        some v) ∧
    (∀ c, u.createdAt = some c →
      (tasks.set idx (mergeTask (tasks.getD idx default) u))[idx]?.map Task.createdAt =
        some c) := by
  obtain ⟨hlt, -, -⟩ := List.findIdx?_eq_some_iff_getElem.mp hfind
  have hgd : tasks.getD idx default = tasks.get ⟨idx, hlt⟩ := by
    simp [List.getD_eq_getElem?_getD, List.getElem?_eq_getElem hlt]
  refine ⟨?_, by simp, fun j hj => List.getElem?_set_ne (fun hc => hj hc.symm),
    ?_, ?_, ?_⟩
  · unfold updateTask
    rw [hfind]
    simp [htext]
  · rw [List.getElem?_set_self (by simpa using hlt), hgd]
    simp [List.getElem?_eq_getElem hlt]
  · intro v hv
    rw [List.getElem?_set_self (by simpa using hlt)]
    simp [mergeTask, hv]
  · intro c hc
    rw [List.getElem?_set_self (by simpa using hlt)]
    simp [mergeTask, hc]

/-- Witness for the amended C2 at a concrete input. -/
theorem updateTask_payload_applied_witness :
    updateTask [fixA, fixB] "a" updQ =
      .ok ([fixA, fixB].set 0 (mergeTask ([fixA, fixB].getD 0 default) updQ)) ∧
    ([fixA, fixB].set 0 (mergeTask ([fixA, fixB].getD 0 default) updQ)).length =
      [fixA, fixB].length ∧
    (∀ j : Nat, j ≠ 0 →
      ([fixA, fixB].set 0 (mergeTask ([fixA, fixB].getD 0 default) updQ))[j]? =
        [fixA, fixB][j]?) ∧
    ([fixA, fixB].set 0 (mergeTask ([fixA, fixB].getD 0 default) updQ))[0]? =
      [fixA, fixB][0]?.map (fun t => mergeTask t updQ) ∧
    (∀ v, updQ.id = some v →
      ([fixA, fixB].set 0 (mergeTask ([fixA, fixB].getD 0 default) updQ))[0]?.map
        Task.id = some v) ∧
    (∀ c, updQ.createdAt = some c →
      ([fixA, fixB].set 0 (mergeTask ([fixA, fixB].getD 0 default) updQ))[0]?.map
        Task.createdAt = some c) :=
  updateTask_payload_applied [fixA, fixB] "a" updQ 0 rfl rfl

/-- C4 counterexample: a payload text of three spaces has trimmed length 0,
yet `Update` succeeds and stores the untrimmed whitespace text verbatim — the
code validates only truthy payload texts, against their raw length, and never
trims — so the claim's "Update fails with InvalidTask for every payload whose
text has trimmed length 0" is false at this input. -/
theorem updateTask_whitespace_text_cex :
    (jsTrim "   ").length = 0 ∧
    updateTask [fixA] "a" { text := some "   " } =
      .ok [{ fixA with text := "   " }] :=
  ⟨rfl, rfl⟩

end TabDo

namespace TabDo

/-- C4 (amended): `Update` fails with `TaskNotFound` exactly when no task with
the given id exists in the list.  A text entry in the payload is validated
against its raw, untrimmed length, and only when it is non-empty: given the
target exists, `Update` fails with `InvalidTask` exactly when the payload
carries a text that is non-empty and longer than 500 characters; an
empty-string text — and any text of raw length at most 500, whitespace-only
included — is merged without validation or trimming.  A failing `Update`
produces no new list, so the state is unchanged. -/
theorem updateTask_error_amended :
    (∀ (tasks : List Task) (taskId : String) (u : TaskUpdate),
        updateTask tasks taskId u = .error .taskNotFound ↔
          ∀ t ∈ tasks, t.id ≠ taskId) ∧
    (∀ (tasks : List Task) (taskId : String) (u : TaskUpdate) (idx : Nat),
        tasks.findIdx? (fun t => t.id == taskId) = some idx →
        (updateTask tasks taskId u = .error .invalidTask ↔
          ∃ s, u.text = some s ∧ s ≠ "" ∧ 500 < s.length)) := by
  constructor
  · intro tasks taskId u
    cases hf : tasks.findIdx? (fun t => t.id == taskId) with
    | none =>
      have hres : updateTask tasks taskId u = .error .taskNotFound := by
        unfold updateTask
        rw [hf]
      rw [hres]
      rw [List.findIdx?_eq_none_iff] at hf
      constructor
      · intro _ t ht
        simpa using hf t ht
      · intro _
        rfl
    | some idx =>
      obtain ⟨hlt, hp, -⟩ := List.findIdx?_eq_some_iff_getElem.mp hf
      have hres : updateTask tasks taskId u =
          (if u.text.any (fun s => s != "" && !validateTaskText s) then
            .error .invalidTask
          else .ok (tasks.set idx (mergeTask (tasks.getD idx default) u))) := by
        unfold updateTask
        rw [hf]
      rw [hres]
      constructor
      · intro h
        exfalso
        by_cases hc : u.text.any (fun s => s != "" && !validateTaskText s) = true
        · rw [if_pos hc] at h
          exact absurd h (by simp)
        · rw [if_neg hc] at h
          exact absurd h (by simp)
      · intro h
        exfalso
        exact h (tasks.get ⟨idx, hlt⟩) (List.get_mem tasks idx hlt) (by simpa using hp)
  · intro tasks taskId u idx hfind
    have hres : updateTask tasks taskId u =
        (if u.text.any (fun s => s != "" && !validateTaskText s) then
          .error .invalidTask
        else .ok (tasks.set idx (mergeTask (tasks.getD idx default) u))) := by
      unfold updateTask
      rw [hfind]
    rw [hres]
    by_cases hc : u.text.any (fun s => s != "" && !validateTaskText s) = true
    · rw [if_pos hc]
      constructor
      · intro _
        cases ht : u.text with
        | none => rw [ht] at hc; simp at hc
        | some s =>
          rw [ht] at hc
          simp only [Option.any_some, Bool.and_eq_true, bne_iff_ne, ne_eq,
            Bool.not_eq_true'] at hc
          obtain ⟨hne, hv⟩ := hc
          refine ⟨s, rfl, hne, ?_⟩
          have hpos := one_le_length_of_ne_empty hne
          simp only [validateTaskText, MIN_TASK_LENGTH, MAX_TASK_LENGTH,
            Bool.and_eq_false_iff, decide_eq_false_iff_not] at hv
          omega
      · intro _
        rfl
    · rw [if_neg hc]
      constructor
      · intro h
        exact absurd h (by simp)
      · rintro ⟨s, hs, hne, hlen⟩
        exfalso
        apply hc
        rw [hs]
        have hval : validateTaskText s = false := by
          simp only [validateTaskText, MIN_TASK_LENGTH, MAX_TASK_LENGTH,
            Bool.and_eq_false_iff, decide_eq_false_iff_not]
          omega
        simp [hval, hne]

/-- Witness for the amended C4 at concrete inputs. -/
theorem updateTask_error_amended_witness :
    (updateTask [fixA] "zz" {} = .error .taskNotFound ↔
      ∀ t ∈ [fixA], t.id ≠ "zz") ∧
    (updateTask [fixA] "a" {} = .error .invalidTask ↔
      ∃ s, ({} : TaskUpdate).text = some s ∧ s ≠ "" ∧ 500 < s.length) :=
  ⟨updateTask_error_amended.1 [fixA] "zz" {},
   updateTask_error_amended.2 [fixA] "a" {} 0 rfl⟩

end TabDo

namespace TabDo

/-- C5: for every list and every id of a task present in it (`idx` the found
index), `Toggle` flips that task's `checked` flag and reorders by the
completion rule: the unchecked tasks, stable-sorted by prior `order`
ascending, precede the checked tasks, stable-sorted by prior `order`
ascending, and `order` is renumbered to the resulting 0-based index.
Sortedness, being a permutation, and tie-stability (equal-`order` tasks keep
their relative order) of each sorted block are stated explicitly, and the
spec's fixture A(order 0, unchecked), B(order 1, checked), C(order 2,
unchecked) yields [C (order 0), A (checked, order 1), B (order 2)] after
Toggle(A). -/
theorem toggleTask_completion_rule (tasks : List Task) (taskId : String)
    (idx : Nat) (hfind : tasks.findIdx? (fun t => t.id == taskId) = some idx) :
    toggleTask tasks taskId =
      .ok (renumber
        (sortByOrder ((flipAt tasks idx).filter (fun t => !t.checked)) ++
         sortByOrder ((flipAt tasks idx).filter (fun t => t.checked)))) ∧
    (sortByOrder ((flipAt tasks idx).filter (fun t => !t.checked))).Pairwise
      (fun a b => a.order ≤ b.order) ∧
    (sortByOrder ((flipAt tasks idx).filter (fun t => t.checked))).Pairwise
      (fun a b => a.order ≤ b.order) ∧
    (sortByOrder ((flipAt tasks idx).filter (fun t => !t.checked))).Perm
      ((flipAt tasks idx).filter (fun t => !t.checked)) ∧
    (sortByOrder ((flipAt tasks idx).filter (fun t => t.checked))).Perm
      ((flipAt tasks idx).filter (fun t => t.checked)) ∧
    (∀ v : Int,
      (sortByOrder ((flipAt tasks idx).filter (fun t => !t.checked))).filter
          (fun t => t.order == v) =
        ((flipAt tasks idx).filter (fun t => !t.checked)).filter
          (fun t => t.order == v)) ∧
    (∀ v : Int,
      (sortByOrder ((flipAt tasks idx).filter (fun t => t.checked))).filter
          (fun t => t.order == v) =
        ((flipAt tasks idx).filter (fun t => t.checked)).filter
          (fun t => t.order == v)) ∧
    (∀ (r : List Task) (k : Nat) (t : Task),
      toggleTask tasks taskId = .ok r → r[k]? = some t → t.order = (k : Int)) ∧
    toggleTask [fixA, fixB, fixC] "a" =
      .ok [{ fixC with order := 0 }, { fixA with checked := true, order := 1 },
           { fixB with order := 2 }] := by
  refine ⟨?_, sortByOrder_pairwise _, sortByOrder_pairwise _, sortByOrder_perm _,
    sortByOrder_perm _, fun v => sortByOrder_filter _ v,
    fun v => sortByOrder_filter _ v, ?_, rfl⟩
  · unfold toggleTask
    rw [hfind]
    rfl
  · intro r k t hok hkt
    unfold toggleTask at hok
    rw [hfind] at hok
    injection hok with h2
    subst h2
    unfold reorderTasksByCompletion at hkt
    rw [renumber_getElem?] at hkt
    rcases Option.map_eq_some'.mp hkt with ⟨t0, -, rfl⟩
    rfl

end TabDo

namespace TabDo

/-- Witness for C5 at the spec's three-task fixture. -/
theorem toggleTask_completion_rule_witness :
    toggleTask [fixA, fixB, fixC] "a" =
      .ok (renumber
        (sortByOrder ((flipAt [fixA, fixB, fixC] 0).filter (fun t => !t.checked)) ++
         sortByOrder ((flipAt [fixA, fixB, fixC] 0).filter (fun t => t.checked)))) :=
  (toggleTask_completion_rule [fixA, fixB, fixC] "a" 0 rfl).1

/-- C9: for a full or partial permutation `taskIds` of ids present in the
list (every listed id present and no duplicates — the operation's documented
precondition, under which the functional rendering of the in-place
`order = index` assignment coincides with the source), `Reorder` produces
exactly the tasks whose ids appear in `taskIds`, in the given sequence order,
each with `order` reassigned to its 0-based index; tasks whose id does not
appear are dropped.  The spec's fixture — ids [c, a, b] on the three-task
list — yields orders 0, 1, 2 for c, a, b regardless of prior order values. -/
theorem reorderTasks_spec (tasks : List Task) (taskIds : List String)
    (hpresent : ∀ i ∈ taskIds, ∃ t ∈ tasks, t.id = i)
    (hnodup : taskIds.Nodup) :
    (reorderTasks tasks taskIds).map Task.id = taskIds ∧
    (reorderTasks tasks taskIds).length = taskIds.length ∧
    (∀ k : Nat, (reorderTasks tasks taskIds)[k]? =
      (taskIds[k]?.bind (fun i => tasks.find? (fun t => t.id == i))).map
        (fun t => { t with order := (k : Int) })) ∧
    (∀ t ∈ tasks, t.id ∉ taskIds →
      ∀ t2 ∈ reorderTasks tasks taskIds, t2.id ≠ t.id) ∧
    reorderTasks [fixA, fixB, fixC] ["c", "a", "b"] =
      [{ fixC with order := 0 }, { fixA with order := 1 },
       { fixB with order := 2 }] := by
  have hsome : ∀ i ∈ taskIds, (tasks.find? (fun t => t.id == i)).isSome := by
    intro i hi
    obtain ⟨t, ht, rfl⟩ := hpresent i hi
    rw [List.find?_isSome]
    exact ⟨t, ht, by simp⟩
  have hmapid : (reorderTasks tasks taskIds).map Task.id = taskIds := by
    apply List.ext_getElem?
    intro n
    unfold reorderTasks
    rw [List.getElem?_map, renumber_getElem?,
      filterMap_getElem?_of_isSome _ _ hsome n]
    cases hn : taskIds[n]? with
    | none => simp
    | some i =>
      have hi : i ∈ taskIds := List.getElem?_mem hn
      obtain ⟨t, hfi⟩ := Option.isSome_iff_exists.mp (hsome i hi)
      have hid : t.id = i := by simpa using List.find?_some hfi
      simp [hfi, hid]
  refine ⟨hmapid, ?_, ?_, ?_, rfl⟩
  · unfold reorderTasks
    rw [renumber_length, filterMap_length_of_isSome _ _ hsome]
  · intro k
    unfold reorderTasks
    rw [renumber_getElem?, filterMap_getElem?_of_isSome _ _ hsome k]
  · intro t ht htni t2 ht2 hcon
    have : t2.id ∈ (reorderTasks tasks taskIds).map Task.id :=
      List.mem_map_of_mem Task.id ht2
    rw [hmapid] at this
    rw [hcon] at this
    exact htni this

/-- Witness for C9 at the spec's fixture. -/
theorem reorderTasks_spec_witness :
    (reorderTasks [fixA, fixB, fixC] ["c", "a", "b"]).map Task.id =
      ["c", "a", "b"] :=
  (reorderTasks_spec [fixA, fixB, fixC] ["c", "a", "b"] (by decide) (by decide)).1

end TabDo

namespace TabDo

/-- Under the distinct-id invariant, flipping the found task's `checked` flag
acts on the (id, checked) projection as a pointwise conditional negation at
the matching id. -/
theorem flipAt_map_checked (tasks : List Task) (taskId : String) (idx : Nat)
    (hfind : tasks.findIdx? (fun t => t.id == taskId) = some idx)
    (hnd : idsNodup tasks) :
    (flipAt tasks idx).map (fun t => (t.id, t.checked)) =
      tasks.map (fun t => (t.id, if t.id == taskId then !t.checked else t.checked)) := by
  obtain ⟨hlt, hp, -⟩ := List.findIdx?_eq_some_iff_getElem.mp hfind
  apply List.ext_getElem?
  intro n
  rw [List.getElem?_map, List.getElem?_map]
  by_cases hn : n < tasks.length
  · by_cases hni : n = idx
    · subst hni
      have hgd : tasks.getD n default = tasks.get ⟨n, hn⟩ := by
        simp [List.getD_eq_getElem?_getD, List.getElem?_eq_getElem hn]
      unfold flipAt
      rw [List.getElem?_set_self (by simpa using hlt), hgd,
        List.getElem?_eq_getElem hn]
      have hideq : tasks[n].id = taskId := by simpa using hp
      simp [hideq]
    · unfold flipAt
      rw [List.getElem?_set_ne (fun hc => hni hc.symm),
        List.getElem?_eq_getElem hn]
      have hneq : tasks[n].id ≠ taskId := by
        intro hcon
        have heq2 : tasks[idx].id = taskId := by simpa using hp
        have hgeteq : (tasks.map Task.id).get ⟨n, by simpa using hn⟩ =
            (tasks.map Task.id).get ⟨idx, by simpa using hlt⟩ := by
          simp only [List.get_eq_getElem, List.getElem_map]
          rw [hcon, heq2]
        have h2 := (List.Nodup.get_inj_iff hnd).mp hgeteq
        exact hni (by simpa using h2)
      simp [hneq]
  · have h1 : tasks.length ≤ n := by omega
    rw [List.getElem?_eq_none h1, List.getElem?_eq_none (by simp [flipAt_length]; omega)]
    rfl

/-- C10: for every list with pairwise-distinct ids and every id of a task
present in it, `Toggle` changes nothing except the targeted task's `checked`
flag and the tasks' `order` fields: the result holds exactly the same tasks
(by id), every task's `text`, `createdAt` and `isRecurring` are preserved,
the target's `checked` is negated, and every other task keeps its `checked`
value — stated as permutations of the order-insensitive projections. -/
theorem toggleTask_frame (tasks : List Task) (taskId : String) (idx : Nat)
    (hfind : tasks.findIdx? (fun t => t.id == taskId) = some idx)
    (hnd : idsNodup tasks) :
    ∃ r, toggleTask tasks taskId = .ok r ∧
      r.length = tasks.length ∧
      (r.map (fun t => (t.id, t.text, t.createdAt, t.isRecurring))).Perm
        (tasks.map (fun t => (t.id, t.text, t.createdAt, t.isRecurring))) ∧
      (r.map (fun t => (t.id, t.checked))).Perm
        (tasks.map (fun t => (t.id, if t.id == taskId then !t.checked else t.checked))) := by
  refine ⟨reorderTasksByCompletion (flipAt tasks idx), ?_, ?_, ?_, ?_⟩
  · unfold toggleTask
    rw [hfind]
  · rw [completion_length, flipAt_length]
  · refine (completion_map_perm (fun t => (t.id, t.text, t.createdAt, t.isRecurring))
      (fun t o => rfl) _).trans ?_
    rw [flipAt_map (fun t => (t.id, t.text, t.createdAt, t.isRecurring))
      (fun t b => rfl)]
  · refine (completion_map_perm (fun t => (t.id, t.checked))
      (fun t o => rfl) _).trans ?_
    rw [flipAt_map_checked tasks taskId idx hfind hnd]

/-- Witness for C10 at the three-task fixture. -/
theorem toggleTask_frame_witness :
    ∃ r, toggleTask [fixA, fixB, fixC] "a" = .ok r ∧
      r.length = [fixA, fixB, fixC].length ∧
      (r.map (fun t => (t.id, t.text, t.createdAt, t.isRecurring))).Perm
        ([fixA, fixB, fixC].map (fun t => (t.id, t.text, t.createdAt, t.isRecurring))) ∧
      (r.map (fun t => (t.id, t.checked))).Perm
        ([fixA, fixB, fixC].map
          (fun t => (t.id, if t.id == "a" then !t.checked else t.checked))) :=
  toggleTask_frame [fixA, fixB, fixC] "a" 0 rfl (by decide)

end TabDo

namespace TabDo

/-- Unpacking `Except.map` on a successful result. -/
theorem exceptMap_ok {α β γ : Type} {f : β → γ} {e : Except α β} {c : γ}
    (h : e.map f = .ok c) : ∃ b, e = .ok b ∧ c = f b := by
  cases e with
  | error a => simp [Except.map] at h
  | ok b =>
    refine ⟨b, rfl, ?_⟩
    simp [Except.map] at h
    exact h.symm

/-- C3 counterexample: `Update` applies an `id` entry from its payload, so on
a two-task daily list with ids "a" and "b" it can rename "a" to "b",
producing duplicate ids: the distinct-id invariant is NOT preserved by every
operation, and states violating it are reachable. -/
theorem invariant_broken_by_update_cex :
    StateInv stateAB ∧
    updateTaskS stateAB .daily "a" { id := some "b" } =
      .ok ⟨1, [{ fixA with id := "b" }, fixB], [], .system, 0⟩ ∧
    ¬ StateInv ⟨1, [{ fixA with id := "b" }, fixB], [], .system, 0⟩ := by
  refine ⟨by decide, rfl, by decide⟩

/-- C3 (amended): the default state satisfies the pairwise-distinct-id
invariant on both lists, and the operations preserve it with the provisos the
code forces: `Add` when the generated id is not already in the target list
(the generator draws on the clock and randomness and is not checked against
the list), `Update` when the payload carries no `id` entry (an `id` entry is
merged verbatim and can duplicate another task's id), `Reorder` when the
given id sequence is duplicate-free, and `Delete`, `Toggle`, `PerformReset`
unconditionally. -/
theorem ops_preserve_distinct_ids :
    (∀ nowMs : Int, StateInv (DEFAULT_APP_STATE nowMs)) ∧
    (∀ (s : AppState) (lt : ListType) (text newId : String) (nowMs : Int)
        (s2 : AppState), StateInv s → newId ∉ (s.getList lt).map Task.id →
        addTaskS s lt text newId nowMs = .ok s2 → StateInv s2) ∧
    (∀ (s : AppState) (lt : ListType) (taskId : String) (u : TaskUpdate)
        (s2 : AppState), StateInv s → u.id = none →
        updateTaskS s lt taskId u = .ok s2 → StateInv s2) ∧
    (∀ (s : AppState) (lt : ListType) (taskId : String),
        StateInv s → StateInv (deleteTaskS s lt taskId)) ∧
    (∀ (s : AppState) (lt : ListType) (taskId : String) (s2 : AppState),
        StateInv s → toggleTaskS s lt taskId = .ok s2 → StateInv s2) ∧
    (∀ (s : AppState) (lt : ListType) (taskIds : List String),
        StateInv s → taskIds.Nodup → StateInv (reorderTasksS s lt taskIds)) ∧
    (∀ s : AppState, StateInv s → StateInv (resetDailyList s)) := by
  refine ⟨?_, ?_, ?_, ?_, ?_, ?_, ?_⟩
  · intro nowMs
    exact ⟨by simp [DEFAULT_APP_STATE, idsNodup], by simp [DEFAULT_APP_STATE, idsNodup]⟩
  · intro s lt text newId nowMs s2 hinv hfresh hok
    obtain ⟨r, hr, hs2⟩ := exceptMap_ok hok
    subst hs2
    exact setList_inv lt hinv (idsNodup_addTask (getList_nodup lt hinv) hfresh hr)
  · intro s lt taskId u s2 hinv hid hok
    obtain ⟨r, hr, hs2⟩ := exceptMap_ok hok
    subst hs2
    exact setList_inv lt hinv (idsNodup_updateTask (getList_nodup lt hinv) hid hr)
  · intro s lt taskId hinv
    exact setList_inv lt hinv (idsNodup_deleteTask (getList_nodup lt hinv))
  · intro s lt taskId s2 hinv hok
    obtain ⟨r, hr, hs2⟩ := exceptMap_ok hok
    subst hs2
    exact setList_inv lt hinv (idsNodup_toggleTask (getList_nodup lt hinv) hr)
  · intro s lt taskIds hinv hnd
    exact setList_inv lt hinv (idsNodup_reorderTasks _ hnd)
  · intro s hinv
    exact ⟨idsNodup_reset hinv.1, hinv.2⟩

/-- Witness for the amended C3: each preserved-invariant conjunct applied at a
concrete state and operation. -/
theorem ops_preserve_distinct_ids_witness :
    StateInv (DEFAULT_APP_STATE 0) ∧
    StateInv (⟨1, [⟨"n", "x", false, 0, 0, false⟩, { fixA with order := 1 },
      { fixB with order := 2 }], [], .system, 0⟩ : AppState) ∧
    StateInv (⟨1, [{ fixA with checked := true }, fixB], [], .system, 0⟩ : AppState) ∧
    StateInv (⟨1, [{ fixA with text := "A2" }, fixB], [], .system, 0⟩ : AppState) ∧
    StateInv (deleteTaskS stateAB .daily "a") ∧
    StateInv (reorderTasksS stateAB .daily ["b", "a"]) ∧
    StateInv (resetDailyList stateAB) :=
  ⟨ops_preserve_distinct_ids.1 0,
   ops_preserve_distinct_ids.2.1 stateAB .daily "x" "n" 0 _ (by decide) (by decide) rfl,
   ops_preserve_distinct_ids.2.2.2.2.1 stateAB .daily "a" _ (by decide) rfl,
   ops_preserve_distinct_ids.2.2.1 stateAB .daily "a" { text := some "A2" } _
     (by decide) rfl rfl,
   ops_preserve_distinct_ids.2.2.2.1 stateAB .daily "a" (by decide),
   ops_preserve_distinct_ids.2.2.2.2.2.1 stateAB .daily ["b", "a"] (by decide) (by decide),
   ops_preserve_distinct_ids.2.2.2.2.2.2 stateAB (by decide)⟩

end TabDo

namespace TabDo

/-- Witness for the amended C7 at concrete inputs. -/
theorem addTask_failure_amended_witness :
    addTask [fixA] "   " "n" 3 = .error .invalidTask ∧
    addTask fullList "ok" "n" 3 = .error .listFull ∧
    applyExcept stateAB (addTaskS stateAB .daily "" "n" 3) = stateAB :=
  ⟨addTask_failure_amended.1 [fixA] "   " "n" 3 (Or.inl (by decide)),
   addTask_failure_amended.2.1 fullList "ok" "n" 3 (by decide) (by decide) (by decide),
   addTask_failure_amended.2.2 stateAB .daily "" "n" 3 .invalidTask rfl⟩

end TabDo
